import Mathlib

/-!
Shallow embedding of the dispatch core of `src/src/services/EmailService.js`
(class `EmailService`): attempt ledger, idempotency scan, rate limiter,
circuit-breaker registry, retry/fallback dispatcher and event emission.
JS `Date` values are modelled as natural-number epoch milliseconds and are
passed explicitly as a `now` parameter; JS `Map`s are modelled as
insertion-ordered association lists; exceptions are modelled with `Except`.
-/

namespace EmailSvc

/-- `EmailStatus` from EmailService.js lines 15-22. -/
inductive EmailStatus where
  | pending
  | queued
  | sending
  | sent
  | failed
  | rate_limited
deriving DecidableEq, Repr

/-- `ProviderStatus` from EmailService.js lines 24-28. -/
inductive ProviderStatus where
  | healthy
  | degraded
  | failed
deriving DecidableEq, Repr

/-- The caller-supplied message payload: fields of `email` inspected by the
service (`to`, `subject`, `body`). -/
structure Email where
  «to» : String
  subject : String
  body : String
deriving DecidableEq, Repr

/-- An attempt record as built in `sendEmail` (lines 154-162) and mutated by
`processEmailAttempt`. `sentAt`, `messageId`, `provider`, `error` are absent
until first assigned, hence `Option`. -/
structure Attempt where
  id : String
  email : Email
  status : EmailStatus
  attempts : Nat
  maxAttempts : Nat
  createdAt : Nat
  updatedAt : Nat
  sentAt : Option Nat := none
  messageId : Option String := none
  provider : Option String := none
  error : Option String := none
deriving DecidableEq, Repr

/-- The service configuration object (constructor default, lines 102-110). -/
structure Config where
  maxRetries : Nat
  initialDelayMs : Nat
  maxDelayMs : Nat
  backoffMultiplier : Nat
  circuitBreakerThreshold : Nat
  circuitBreakerResetTime : Nat
  rateLimitPerMinute : Nat
deriving DecidableEq, Repr

/-- Per-provider circuit-breaker record (initialised lines 127-132, fields
`lastFailureTime`/`halfOpenRetryTime` added lazily, hence `Option`). -/
structure CircuitBreaker where
  isOpen : Bool
  failureCount : Nat
  lastFailureTime : Option Nat := none
  halfOpenRetryTime : Option Nat := none
deriving DecidableEq, Repr

/-- `rateLimitState` (lines 121-124): admitted count and window expiry. -/
structure RateLimitState where
  count : Nat
  resetTime : Nat
deriving DecidableEq, Repr

/-- Lifecycle events published through `emit` in the submission and dispatch
paths (`attemptCreated`, `attemptUpdated`), carrying the attempt value at
emission time. -/
inductive EmailEvent where
  | attemptCreated (a : Attempt)
  | attemptUpdated (a : Attempt)
deriving DecidableEq, Repr

/-- Whether an event is an `attemptUpdated` event. -/
def EmailEvent.isUpdated : EmailEvent → Bool
  | .attemptUpdated _ => true
  | _ => false

/-- Whether an event is an `attemptCreated` event. -/
def EmailEvent.isCreated : EmailEvent → Bool
  | .attemptCreated _ => true
  | _ => false

/-- `checkRateLimit` (lines 308-318): lazily reset the window if expired,
then report whether the counter is below the ceiling. Returns the boolean
result together with the (possibly reset) state; the counter itself is not
changed by the check. -/
def checkRateLimit (cfg : Config) (st : RateLimitState) (now : Nat) :
    Bool × RateLimitState :=
  let st' := if st.resetTime ≤ now then
      { count := 0, resetTime := now + 60000 } else st
  (decide (st'.count < cfg.rateLimitPerMinute), st')

/-- `incrementRateLimit` (lines 323-325). -/
def incrementRateLimit (st : RateLimitState) : RateLimitState :=
  { st with count := st.count + 1 }

/-- `recordProviderSuccess` body (lines 350-358), acting on one breaker. -/
def recordProviderSuccess (b : CircuitBreaker) : CircuitBreaker :=
  { b with failureCount := 0, isOpen := false,
           lastFailureTime := none, halfOpenRetryTime := none }

/-- `recordProviderFailure` body (lines 360-375), acting on one breaker. -/
def recordProviderFailure (cfg : Config) (b : CircuitBreaker) (now : Nat) :
    CircuitBreaker :=
  let b1 := { b with failureCount := b.failureCount + 1,
                     lastFailureTime := some now }
  if cfg.circuitBreakerThreshold ≤ b1.failureCount then
    { b1 with isOpen := true,
              halfOpenRetryTime := some (now + cfg.circuitBreakerResetTime) }
  else b1

/-- `isCircuitBreakerOpen` body (lines 330-348), acting on one breaker:
returns the answer and the breaker after the possible half-open transition. -/
def isCircuitBreakerOpen (b : CircuitBreaker) (now : Nat) :
    Bool × CircuitBreaker :=
  if b.isOpen then
    match b.halfOpenRetryTime with
    | some t =>
        if t ≤ now then
          (false, { b with isOpen := false, halfOpenRetryTime := none })
        else (true, b)
    | none => (true, b)
  else (false, b)

/-- The breaker registry `circuitBreakers`: insertion-ordered map from
provider name to breaker. -/
abbrev BreakerMap := List (String × CircuitBreaker)

/-- `circuitBreakers.get(name)` on the registry. -/
def getBreaker (m : BreakerMap) (name : String) : Option CircuitBreaker :=
  (List.find? (fun p => p.1 == name) m).map Prod.snd

/-- In-place mutation of the breaker stored under `name` (JS mutates the
object held in the map; absent names are untouched, matching the
`if (!breaker) return` guards). -/
def updateBreaker (m : BreakerMap) (name : String)
    (f : CircuitBreaker → CircuitBreaker) : BreakerMap :=
  List.map (fun p => if p.1 == name then (p.1, f p.2) else p) m

/-- The predicate of `findExistingAttempt` (lines 386-392): identical
recipient, subject and body, status not failed, created within the last
300000 ms. JS computes `Date.now() - createdAt < 300000`; for `createdAt`
in the future the JS difference is negative and the test holds, as does the
truncated Nat difference here. -/
def matchesExisting (email : Email) (now : Nat) (a : Attempt) : Bool :=
  a.email.«to» == email.«to» && a.email.subject == email.subject &&
  a.email.body == email.body && !(a.status == EmailStatus.failed) &&
  decide (now - a.createdAt < 300000)

/-- `findExistingAttempt` (lines 384-397): first ledger entry, in insertion
order, satisfying `matchesExisting`. -/
def findExistingAttempt (attempts : List Attempt) (email : Email)
    (now : Nat) : Option Attempt :=
  List.find? (matchesExisting email now) attempts

/-- `this.attempts.set(id, attempt)` on the insertion-ordered ledger:
replace the entry with the same id, else append. -/
def setAttempt (ledger : List Attempt) (a : Attempt) : List Attempt :=
  if ledger.any (fun x => x.id == a.id) then
    ledger.map (fun x => if x.id == a.id then a else x)
  else ledger ++ [a]

/-- The mutable service state threaded through submission: the attempt
ledger, the queue of attempt ids, the rate-limiter state, and the trace of
events published via `emit`. -/
structure ServiceState where
  attempts : List Attempt
  queue : List String
  rateLimitState : RateLimitState
  events : List EmailEvent
deriving DecidableEq, Repr

/-- The attempt record created at submission (lines 154-162). -/
def newAttempt (cfg : Config) (attemptId : String) (email : Email)
    (now : Nat) : Attempt :=
  { id := attemptId, email := email, status := EmailStatus.pending,
    attempts := 0, maxAttempts := cfg.maxRetries,
    createdAt := now, updatedAt := now }

/-- `sendEmail` (lines 143-189), up to the fire-and-forget
`this.processQueue()` call: dedup scan, attempt creation + `attemptCreated`
event, rate-limit check (rejection records `rate_limited` and throws), else
enqueue + `attemptUpdated`. The generated id is passed in (`generateId` is
random); the thrown `Error` is the `Except.error` branch. Queue processing
is not awaited by `sendEmail`, so it is not part of this function. -/
def sendEmail (cfg : Config) (st : ServiceState) (attemptId : String)
    (email : Email) (now : Nat) : Except String String × ServiceState :=
  match findExistingAttempt st.attempts email now with
  | some existing => (Except.ok existing.id, st)
  | none =>
    let attempt : Attempt := newAttempt cfg attemptId email now
    let st1 := { st with attempts := setAttempt st.attempts attempt,
                         events := st.events ++ [EmailEvent.attemptCreated attempt] }
    let chk := checkRateLimit cfg st1.rateLimitState now
    let st2 := { st1 with rateLimitState := chk.2 }
    if chk.1 then
      let attempt2 := { attempt with status := EmailStatus.queued }
      let st3 := { st2 with queue := st2.queue ++ [attemptId],
                            attempts := setAttempt st2.attempts attempt2,
                            events := st2.events ++ [EmailEvent.attemptUpdated attempt2] }
      (Except.ok attemptId, st3)
    else
      let attempt2 := { attempt with status := EmailStatus.rate_limited,
                                     error := some "Rate limit exceeded" }
      let st3 := { st2 with attempts := setAttempt st2.attempts attempt2,
                            events := st2.events ++ [EmailEvent.attemptUpdated attempt2] }
      (Except.error "Rate limit exceeded. Please try again later.", st3)

/-- A delivery backend as the dispatcher consumes it: a name and the
`sendEmail` capability. A throwing `provider.sendEmail` is `Except.error
reason`; a resolved `{success: true, messageId}` is `Except.ok messageId`
(the repository's `MockEmailProvider` always does one of these two). -/
structure Provider where
  name : String
  send : Email → Except String String

/-- State threaded through `processEmailAttempt`: the attempt being
processed, the breaker registry, the rate-limiter state, the event trace,
the backoff delays actually slept (ghost observation of the `setTimeout`
calls), and the names of the providers actually invoked (ghost observation
of the `provider.sendEmail` calls). -/
structure DispatchState where
  attempt : Attempt
  breakers : BreakerMap
  rateLimit : RateLimitState
  events : List EmailEvent
  delays : List Nat
  invoked : List String
deriving DecidableEq, Repr

/-- The inner provider loop of `processEmailAttempt` (lines 229-277): for
each provider in order, consult (and possibly half-open-transition) its
breaker; skip it if open; otherwise invoke it. Success records the outcome
on the attempt, resets the breaker, increments the rate counter, emits an
update and stops. Failure records the error and the breaker failure and
moves to the next provider. Returns whether some provider succeeded. -/
def tryProviders (cfg : Config) (now : Nat) :
    List Provider → DispatchState → Bool × DispatchState
  | [], ds => (false, ds)
  | p :: rest, ds =>
    let check : Bool × BreakerMap :=
      match getBreaker ds.breakers p.name with
      | none => (false, ds.breakers)
      | some b =>
        let r := isCircuitBreakerOpen b now
        (r.1, updateBreaker ds.breakers p.name (fun _ => r.2))
    let ds1 := { ds with breakers := check.2 }
    if check.1 then
      tryProviders cfg now rest ds1
    else
      let ds2 := { ds1 with invoked := ds1.invoked ++ [p.name] }
      match p.send ds2.attempt.email with
      | Except.ok msgId =>
        let a := { ds2.attempt with
                   status := EmailStatus.sent,
                   sentAt := some now, messageId := some msgId,
                   provider := some p.name }
        (true, { ds2 with
                 attempt := a,
                 breakers := updateBreaker ds2.breakers p.name
                   recordProviderSuccess,
                 rateLimit := incrementRateLimit ds2.rateLimit,
                 events := ds2.events ++ [EmailEvent.attemptUpdated a] })
      | Except.error e =>
        let a := { ds2.attempt with error := some e }
        tryProviders cfg now rest { ds2 with
          attempt := a,
          breakers := updateBreaker ds2.breakers p.name
            (fun b => recordProviderFailure cfg b now) }

/-- The backoff delay computed at line 281-284:
`min(initialDelayMs * backoffMultiplier^i, maxDelayMs)` for round index
`i`. -/
def delayForRound (cfg : Config) (i : Nat) : Nat :=
  min (cfg.initialDelayMs * cfg.backoffMultiplier ^ i) cfg.maxDelayMs

/-- Start of retry round `i` (lines 223-226): bump `attempts` to `i + 1`,
refresh `updatedAt`, emit an update. -/
def roundStart (i now : Nat) (ds : DispatchState) : DispatchState :=
  let a := { ds.attempt with attempts := i + 1, updatedAt := now }
  { ds with
    attempt := a,
    events := ds.events ++ [EmailEvent.attemptUpdated a] }

/-- End of a failed retry round (lines 280-293): sleep `delayForRound` when
`i < maxRetries - 1`, recorded in the ghost `delays` trace. -/
def afterRound (cfg : Config) (i : Nat) (ds : DispatchState) :
    DispatchState :=
  if i < cfg.maxRetries - 1 then
    { ds with delays := ds.delays ++ [delayForRound cfg i] }
  else ds

/-- The retry loop `for (let i = 0; i < maxRetries; i++)` of
`processEmailAttempt` (lines 222-294), written with the remaining round
count as structural fuel (invoked with `rem = maxRetries`, `i = 0`). Each
round bumps `attempts` to `i + 1`, emits an update, runs the provider loop,
and on failure sleeps `delayForRound` when `i < maxRetries - 1`. -/
def runRounds (cfg : Config) (providers : List Provider) (now : Nat) :
    Nat → Nat → DispatchState → Bool × DispatchState
  | 0, _, ds => (false, ds)
  | rem + 1, i, ds =>
    let r := tryProviders cfg now providers (roundStart i now ds)
    if r.1 then (true, r.2)
    else runRounds cfg providers now rem (i + 1) (afterRound cfg i r.2)

/-- `processEmailAttempt` (lines 217-303): transition to `sending`, run the
retry rounds, and on exhaustion mark the attempt `failed` and emit a final
update. The function is total and returns the final state: exhaustion is
never raised as an exception (and `processQueue`, lines 204-208, would
swallow one anyway). -/
def processEmailAttempt (cfg : Config) (providers : List Provider)
    (now : Nat) (ds : DispatchState) : DispatchState :=
  let a := { ds.attempt with status := EmailStatus.sending }
  let ds1 := { ds with
               attempt := a,
               events := ds.events ++ [EmailEvent.attemptUpdated a] }
  let r := runRounds cfg providers now cfg.maxRetries 0 ds1
  if r.1 then r.2
  else
    let a2 := { r.2.attempt with
                status := EmailStatus.failed,
                updatedAt := now }
    { r.2 with
      attempt := a2,
      events := r.2.events ++ [EmailEvent.attemptUpdated a2] }

/-- An observer callback as `emit` consumes it: `Except.error reason` models
a handler that throws, `Except.ok out` a handler that completes with
observable effect `out`. -/
abbrev Handler := Attempt → Except String String

/-- The `listeners.forEach` body of `emit` (lines 471-482): call each
currently registered listener in order with the attempt; a throwing
listener is caught and an error log entry appended, and iteration
continues. Returns the logs and the outputs of the handlers that ran
normally; the function itself is total — no handler error escapes. -/
def emitRun (a : Attempt) :
    List Handler → List String → List String → List String × List String
  | [], logs, outputs => (logs, outputs)
  | h :: rest, logs, outputs =>
    match h a with
    | Except.ok out => emitRun a rest logs (outputs ++ [out])
    | Except.error e =>
        emitRun a rest (logs ++ ["Event listener error: " ++ e]) outputs

/-- `emit(event, data)` (lines 471-482): look up the listener set registered
for the event kind (`eventListeners.get(event)`); when absent, nothing runs. -/
def emit (eventListeners : List (String × List Handler)) (event : String)
    (a : Attempt) (logs : List String) : List String × List String :=
  match (List.find? (fun p => p.1 == event) eventListeners).map Prod.snd with
  | none => (logs, [])
  | some ls => emitRun a ls logs []

/-- `getAttempt` (lines 402-404): ledger lookup by attempt id. -/
def getAttempt (attempts : List Attempt) (id : String) : Option Attempt :=
  List.find? (fun a => a.id == id) attempts

/-- The attempt value an event carries. -/
def EmailEvent.attemptOf : EmailEvent → Attempt
  | .attemptCreated a => a
  | .attemptUpdated a => a

/-- The subsequence of events concerning a given attempt identity. -/
def eventsFor (id : String) (es : List EmailEvent) : List EmailEvent :=
  List.filter (fun e => e.attemptOf.id == id) es

/-- How many ledger entries currently satisfy the idempotency predicate for
a given message and time. -/
def countMatching (attempts : List Attempt) (email : Email) (now : Nat) :
    Nat :=
  (List.filter (matchesExisting email now) attempts).length

/-- A provider whose every invocation throws, like `MockEmailProvider` with
`failureRate = 1`. -/
def Provider.alwaysFails (p : Provider) : Prop :=
  ∀ em, ∃ e, p.send em = Except.error e

/-! Concrete fixtures used by witnesses and counterexamples; `cfgD` is the
constructor's default configuration (lines 102-110). -/

/-- The default configuration object. -/
def cfgD : Config :=
  { maxRetries := 3, initialDelayMs := 1000, maxDelayMs := 10000,
    backoffMultiplier := 2, circuitBreakerThreshold := 5,
    circuitBreakerResetTime := 60000, rateLimitPerMinute := 100 }

/-- A sample message. -/
def emD : Email := { «to» := "user@example.com", subject := "hi", body := "hello" }

/-- A fresh rate-limiter window. -/
def rlD : RateLimitState := { count := 0, resetTime := 60000 }

/-- An empty service state. -/
def stD : ServiceState :=
  { attempts := [], queue := [], rateLimitState := rlD, events := [] }

/-- A closed breaker as initialised in the constructor (lines 127-132). -/
def bClosed : CircuitBreaker := { isOpen := false, failureCount := 0 }

/-- An open breaker with a scheduled resume time, as produced after five
failures at time 100 under `cfgD`. -/
def bOpenD : CircuitBreaker :=
  { isOpen := true, failureCount := 5, lastFailureTime := some 100,
    halfOpenRetryTime := some 60100 }

/-- A provider that always throws. -/
def provFail : Provider :=
  { name := "A", send := fun _ => Except.error "A provider failure: Network timeout" }

/-- A provider that always succeeds. -/
def provOk : Provider := { name := "B", send := fun _ => Except.ok "B-42" }

/-- A queued attempt for `emD`. -/
def aD : Attempt :=
  { id := "email_1", email := emD, status := EmailStatus.queued,
    attempts := 0, maxAttempts := 3, createdAt := 0, updatedAt := 0 }

/-- A dispatch state holding `aD` with fresh breakers for providers A, B. -/
def dsD : DispatchState :=
  { attempt := aD, breakers := [("A", bClosed), ("B", bClosed)],
    rateLimit := rlD, events := [], delays := [], invoked := [] }

/-- A dispatch state in which provider A's breaker is open. -/
def dsOpen : DispatchState :=
  { attempt := aD, breakers := [("A", bOpenD), ("B", bClosed)],
    rateLimit := rlD, events := [], delays := [], invoked := [] }

/-- A breaker one failure short of the default threshold. -/
def bNear : CircuitBreaker := { isOpen := false, failureCount := 4 }

/-- A service state whose rate-limit window is exhausted. -/
def stFull : ServiceState :=
  { attempts := [], queue := [],
    rateLimitState := { count := 100, resetTime := 60000 }, events := [] }

/-- A handler that completes normally. -/
def hOk1 : Handler := fun _ => Except.ok "handler-one"

/-- A handler that throws. -/
def hBad : Handler := fun _ => Except.error "listener blew up"

/-- A second handler that completes normally. -/
def hOk2 : Handler := fun _ => Except.ok "handler-two"

/-- A listener registry with a throwing handler between two normal ones. -/
def evLD : List (String × List Handler) :=
  [("attemptUpdated", [hOk1, hBad, hOk2])]

/-! ## Helper lemmas -/

/-- `emitRun` characterised: the logs collect one entry per throwing
handler, in order, and the outputs collect the effect of every
non-throwing handler, in order; no handler is skipped and no error
escapes. -/
theorem emitRun_eq (a : Attempt) :
    ∀ (ls : List Handler) (logs outputs : List String),
      emitRun a ls logs outputs =
        (logs ++ ls.filterMap (fun h =>
            match h a with
            | Except.error e => some ("Event listener error: " ++ e)
            | Except.ok _ => none),
         outputs ++ ls.filterMap (fun h =>
            match h a with
            | Except.error _ => none
            | Except.ok out => some out)) := by
  intro ls
  induction ls with
  | nil => intro logs outputs; simp [emitRun]
  | cons h rest ih =>
    intro logs outputs
    cases hr : h a with
    | ok out => simp [emitRun, hr, ih]
    | error e => simp [emitRun, hr, ih]

/-- One-step unfolding of the registry lookup. -/
theorem getBreaker_cons (k : String) (v : CircuitBreaker) (rest : BreakerMap)
    (n : String) :
    getBreaker ((k, v) :: rest) n =
      if k = n then some v else getBreaker rest n := by
  by_cases h : k = n
  · simp [getBreaker, List.find?_cons_of_pos, h]
  · simp [getBreaker, List.find?_cons_of_neg, h]

/-- One-step unfolding of the registry update. -/
theorem updateBreaker_cons (k : String) (v : CircuitBreaker)
    (rest : BreakerMap) (n : String) (f : CircuitBreaker → CircuitBreaker) :
    updateBreaker ((k, v) :: rest) n f =
      (if k = n then (k, f v) else (k, v)) :: updateBreaker rest n f := by
  by_cases h : k = n <;> simp [updateBreaker, h]

/-- Updating a breaker rewrites exactly the stored value under that name. -/
theorem getBreaker_updateBreaker (m : BreakerMap) (n : String)
    (f : CircuitBreaker → CircuitBreaker) :
    getBreaker (updateBreaker m n f) n = (getBreaker m n).map f := by
  induction m with
  | nil => rfl
  | cons p rest ih =>
    rcases p with ⟨k, v⟩
    rw [updateBreaker_cons]
    by_cases h : k = n
    · simp [h, getBreaker_cons]
    · simp only [if_neg h, getBreaker_cons, h, if_false]
      exact ih

/-- Updating one breaker never changes the value stored under another
name. -/
theorem getBreaker_updateBreaker_ne (m : BreakerMap) (n n' : String)
    (f : CircuitBreaker → CircuitBreaker) (h : n' ≠ n) :
    getBreaker (updateBreaker m n f) n' = getBreaker m n' := by
  induction m with
  | nil => rfl
  | cons p rest ih =>
    rcases p with ⟨k, v⟩
    rw [updateBreaker_cons]
    by_cases hk : k = n
    · have hk' : k ≠ n' := fun hc => h (hc ▸ hk)
      simp only [if_pos hk, getBreaker_cons, hk', if_false]
      exact ih
    · by_cases hk' : k = n'
      · subst hk'
        simp [if_neg h, getBreaker_cons]
      · simp only [if_neg hk, getBreaker_cons, hk', if_false]
        exact ih

/-- `setAttempt` appends when the id is not yet in the ledger. -/
theorem setAttempt_append (l : List Attempt) (a : Attempt)
    (h : ∀ x ∈ l, x.id ≠ a.id) : setAttempt l a = l ++ [a] := by
  have : l.any (fun x => x.id == a.id) = false := by
    simp only [List.any_eq_false]
    intro x hx
    simpa using h x hx
  simp [setAttempt, this]

/-- `setAttempt` on a ledger ending in an entry with the same id replaces
exactly that entry. -/
theorem setAttempt_replace_last (l : List Attempt) (a0 a : Attempt)
    (hid : a0.id = a.id) (h : ∀ x ∈ l, x.id ≠ a.id) :
    setAttempt (l ++ [a0]) a = l ++ [a] := by
  have hany : (l ++ [a0]).any (fun x => x.id == a.id) = true := by
    simp [List.any_append, hid]
  simp only [setAttempt, hany, if_true, List.map_append]
  congr 1
  · conv_rhs => rw [(List.map_id l).symm]
    refine List.map_congr_left ?_
    intro x hx
    simp [h x hx]
  · simp [hid]

/-- An attempt matching the idempotency predicate at a later time also
matches at any earlier time: the deduplication window only expires. -/
theorem matchesExisting_mono (email : Email) (a : Attempt) (t1 t2 : Nat)
    (hle : t1 ≤ t2) (h : matchesExisting email t2 a = true) :
    matchesExisting email t1 a = true := by
  simp only [matchesExisting, Bool.and_eq_true, decide_eq_true_eq] at h ⊢
  refine ⟨h.1, ?_⟩
  have := h.2
  omega

/-- Submission short-circuits on an idempotency hit (lines 147-151):
the existing identity is returned and the state is untouched. -/
theorem sendEmail_dup (cfg : Config) (st : ServiceState) (id : String)
    (email : Email) (now : Nat) (ex : Attempt)
    (h : findExistingAttempt st.attempts email now = some ex) :
    sendEmail cfg st id email now = (Except.ok ex.id, st) := by
  simp [sendEmail, h]

/-- A fresh, admitted submission characterised: new queued ledger entry,
queue extended, `attemptCreated` then `attemptUpdated` emitted. -/
theorem sendEmail_granted (cfg : Config) (st : ServiceState) (id : String)
    (email : Email) (now : Nat)
    (hno : findExistingAttempt st.attempts email now = none)
    (hfresh : ∀ x ∈ st.attempts, x.id ≠ id)
    (hgrant : (checkRateLimit cfg st.rateLimitState now).1 = true) :
    sendEmail cfg st id email now =
      (Except.ok id,
       { attempts := st.attempts ++
           [{ newAttempt cfg id email now with status := EmailStatus.queued }],
         queue := st.queue ++ [id],
         rateLimitState := (checkRateLimit cfg st.rateLimitState now).2,
         events := st.events ++
           [EmailEvent.attemptCreated (newAttempt cfg id email now),
            EmailEvent.attemptUpdated
              { newAttempt cfg id email now with
                status := EmailStatus.queued }] }) := by
  have hfr : ∀ x ∈ st.attempts, x.id ≠ (newAttempt cfg id email now).id := by
    intro x hx
    simpa [newAttempt] using hfresh x hx
  have h1 := setAttempt_append st.attempts (newAttempt cfg id email now) hfr
  have h2 := setAttempt_replace_last st.attempts (newAttempt cfg id email now)
    { newAttempt cfg id email now with status := EmailStatus.queued }
    (by simp) (by intro x hx; simpa [newAttempt] using hfresh x hx)
  simp only [sendEmail, hno]
  simp [h1, h2, hgrant]

/-- A fresh, denied submission characterised: the attempt is recorded with
terminal status `rate_limited`, the queue is untouched, the
rate-limit error is thrown, and `attemptCreated` then `attemptUpdated`
are emitted. -/
theorem sendEmail_denied (cfg : Config) (st : ServiceState) (id : String)
    (email : Email) (now : Nat)
    (hno : findExistingAttempt st.attempts email now = none)
    (hfresh : ∀ x ∈ st.attempts, x.id ≠ id)
    (hdeny : (checkRateLimit cfg st.rateLimitState now).1 = false) :
    sendEmail cfg st id email now =
      (Except.error "Rate limit exceeded. Please try again later.",
       { attempts := st.attempts ++
           [{ newAttempt cfg id email now with
              status := EmailStatus.rate_limited,
              error := some "Rate limit exceeded" }],
         queue := st.queue,
         rateLimitState := (checkRateLimit cfg st.rateLimitState now).2,
         events := st.events ++
           [EmailEvent.attemptCreated (newAttempt cfg id email now),
            EmailEvent.attemptUpdated
              { newAttempt cfg id email now with
                status := EmailStatus.rate_limited,
                error := some "Rate limit exceeded" }] }) := by
  have hfr : ∀ x ∈ st.attempts, x.id ≠ (newAttempt cfg id email now).id := by
    intro x hx
    simpa [newAttempt] using hfresh x hx
  have h1 := setAttempt_append st.attempts (newAttempt cfg id email now) hfr
  have h2 := setAttempt_replace_last st.attempts (newAttempt cfg id email now)
    { newAttempt cfg id email now with
      status := EmailStatus.rate_limited,
      error := some "Rate limit exceeded" }
    (by simp) (by intro x hx; simpa [newAttempt] using hfresh x hx)
  simp only [sendEmail, hno]
  simp [h1, h2, hdeny]

/-- On success, `tryProviders` bumps the rate counter by exactly one
(`incrementRateLimit` in the success branch, line 256). -/
theorem tryProviders_rateLimit_of_success (cfg : Config) (now : Nat) :
    ∀ (ps : List Provider) (ds : DispatchState),
      (tryProviders cfg now ps ds).1 = true →
      (tryProviders cfg now ps ds).2.rateLimit =
        incrementRateLimit ds.rateLimit := by
  intro ps
  induction ps with
  | nil => intro ds h; simp [tryProviders] at h
  | cons p rest ih =>
    intro ds h
    simp only [tryProviders] at h ⊢
    cases hgb : getBreaker ds.breakers p.name with
    | none =>
      simp only [hgb] at h ⊢
      cases hs : p.send ds.attempt.email with
      | ok m => simp [hs]
      | error e =>
        simp only [hs] at h ⊢
        simpa using ih _ (by simpa using h)
    | some b =>
      simp only [hgb] at h ⊢
      by_cases hop : (isCircuitBreakerOpen b now).1
      · simp only [hop] at h ⊢
        simpa using ih _ (by simpa using h)
      · simp only [Bool.not_eq_true] at hop
        simp only [hop] at h ⊢
        cases hs : p.send ds.attempt.email with
        | ok m => simp [hs]
        | error e =>
          simp only [hs] at h ⊢
          simpa using ih _ (by simpa using h)

/-- The provider loop never changes the attempt's identity. -/
theorem tryProviders_attempt_id (cfg : Config) (now : Nat) :
    ∀ (ps : List Provider) (ds : DispatchState),
      (tryProviders cfg now ps ds).2.attempt.id = ds.attempt.id := by
  intro ps
  induction ps with
  | nil => intro ds; simp [tryProviders]
  | cons p rest ih =>
    intro ds
    simp only [tryProviders]
    cases hgb : getBreaker ds.breakers p.name with
    | none =>
      simp only [hgb]
      cases hs : p.send ds.attempt.email with
      | ok m => simp [hs]
      | error e => simp only [hs]; simpa using ih _
    | some b =>
      simp only [hgb]
      by_cases hop : (isCircuitBreakerOpen b now).1
      · simp only [hop]
        simpa using ih _
      · simp only [Bool.not_eq_true] at hop
        simp only [hop]
        cases hs : p.send ds.attempt.email with
        | ok m => simp [hs]
        | error e => simp only [hs]; simpa using ih _

/-- On success the attempt leaves the provider loop marked `sent`. -/
theorem tryProviders_sent_of_success (cfg : Config) (now : Nat) :
    ∀ (ps : List Provider) (ds : DispatchState),
      (tryProviders cfg now ps ds).1 = true →
      (tryProviders cfg now ps ds).2.attempt.status = EmailStatus.sent := by
  intro ps
  induction ps with
  | nil => intro ds h; simp [tryProviders] at h
  | cons p rest ih =>
    intro ds h
    simp only [tryProviders] at h ⊢
    cases hgb : getBreaker ds.breakers p.name with
    | none =>
      simp only [hgb] at h ⊢
      cases hs : p.send ds.attempt.email with
      | ok m => simp [hs]
      | error e =>
        simp only [hs] at h ⊢
        simpa using ih _ (by simpa using h)
    | some b =>
      simp only [hgb] at h ⊢
      by_cases hop : (isCircuitBreakerOpen b now).1
      · simp only [hop] at h ⊢
        simpa using ih _ (by simpa using h)
      · simp only [Bool.not_eq_true] at hop
        simp only [hop] at h ⊢
        cases hs : p.send ds.attempt.email with
        | ok m => simp [hs]
        | error e =>
          simp only [hs] at h ⊢
          simpa using ih _ (by simpa using h)

/-- The provider loop only appends `attemptUpdated` events, all carrying
the processed attempt's identity. -/
theorem tryProviders_events (cfg : Config) (now : Nat) :
    ∀ (ps : List Provider) (ds : DispatchState), ∃ l,
      (tryProviders cfg now ps ds).2.events = ds.events ++ l ∧
      ∀ e ∈ l, e.isUpdated = true ∧ e.attemptOf.id = ds.attempt.id := by
  intro ps
  induction ps with
  | nil => intro ds; exact ⟨[], by simp [tryProviders], by simp⟩
  | cons p rest ih =>
    intro ds
    simp only [tryProviders]
    cases hgb : getBreaker ds.breakers p.name with
    | none =>
      simp only [hgb]
      cases hs : p.send ds.attempt.email with
      | ok m =>
        refine ⟨[EmailEvent.attemptUpdated
          { ds.attempt with
            status := EmailStatus.sent, sentAt := some now,
            messageId := some m, provider := some p.name }], ?_, ?_⟩
        · simp [hs]
        · simp [EmailEvent.isUpdated, EmailEvent.attemptOf]
      | error e =>
        simp only [hs]
        obtain ⟨l, hl, hall⟩ := ih ({ ds with
          attempt := { ds.attempt with error := some e },
          breakers := updateBreaker ds.breakers p.name
            (fun b => recordProviderFailure cfg b now),
          invoked := ds.invoked ++ [p.name] })
        exact ⟨l, by simpa using hl, by simpa using hall⟩
    | some b =>
      simp only [hgb]
      by_cases hop : (isCircuitBreakerOpen b now).1
      · simp only [hop]
        obtain ⟨l, hl, hall⟩ := ih ({ ds with
          breakers := updateBreaker ds.breakers p.name
            (fun _ => (isCircuitBreakerOpen b now).2) })
        exact ⟨l, by simpa using hl, by simpa using hall⟩
      · simp only [Bool.not_eq_true] at hop
        simp only [hop]
        cases hs : p.send ds.attempt.email with
        | ok m =>
          refine ⟨[EmailEvent.attemptUpdated
            { ds.attempt with
              status := EmailStatus.sent, sentAt := some now,
              messageId := some m, provider := some p.name }], ?_, ?_⟩
          · simp [hs]
          · simp [EmailEvent.isUpdated, EmailEvent.attemptOf]
        | error e =>
          simp only [hs]
          obtain ⟨l, hl, hall⟩ := ih ({ ds with
            attempt := { ds.attempt with error := some e },
            breakers := updateBreaker (updateBreaker ds.breakers p.name
                (fun _ => (isCircuitBreakerOpen b now).2)) p.name
              (fun b => recordProviderFailure cfg b now),
            invoked := ds.invoked ++ [p.name] })
          exact ⟨l, by simpa using hl, by simpa using hall⟩

/-- When every listed provider always throws, the provider loop reports
failure and leaves status, attempt counter, events, delays and rate-limit
state untouched (only the error field, breakers and the invocation trace
change). -/
theorem tryProviders_allFail (cfg : Config) (now : Nat) :
    ∀ (ps : List Provider), (∀ p ∈ ps, p.alwaysFails) →
      ∀ (ds : DispatchState),
      (tryProviders cfg now ps ds).1 = false ∧
      (tryProviders cfg now ps ds).2.attempt.status = ds.attempt.status ∧
      (tryProviders cfg now ps ds).2.attempt.attempts = ds.attempt.attempts ∧
      (tryProviders cfg now ps ds).2.attempt.id = ds.attempt.id ∧
      (tryProviders cfg now ps ds).2.events = ds.events ∧
      (tryProviders cfg now ps ds).2.delays = ds.delays ∧
      (tryProviders cfg now ps ds).2.rateLimit = ds.rateLimit := by
  intro ps
  induction ps with
  | nil => intro _ ds; simp [tryProviders]
  | cons p rest ih =>
    intro hf ds
    have hrest : ∀ q ∈ rest, q.alwaysFails := fun q hq =>
      hf q (List.mem_cons_of_mem p hq)
    obtain ⟨e, he⟩ := hf p (List.mem_cons_self p rest) ds.attempt.email
    simp only [tryProviders]
    cases hgb : getBreaker ds.breakers p.name with
    | none =>
      simp only [hgb, he]
      simpa using ih hrest _
    | some b =>
      simp only [hgb]
      by_cases hop : (isCircuitBreakerOpen b now).1
      · simp only [hop]
        simpa using ih hrest _
      · simp only [Bool.not_eq_true] at hop
        simp only [hop, he]
        simpa using ih hrest _

/-- A backend whose breaker is open with an unelapsed (or absent) resume
time is never invoked by the provider loop, and its breaker is left
exactly as it was. -/
theorem tryProviders_skips_open (cfg : Config) (now : Nat) (n : String)
    (b : CircuitBreaker) (hopen : b.isOpen = true)
    (hun : ∀ t, b.halfOpenRetryTime = some t → now < t) :
    ∀ (ps : List Provider) (ds : DispatchState),
      getBreaker ds.breakers n = some b → n ∉ ds.invoked →
      n ∉ (tryProviders cfg now ps ds).2.invoked ∧
      getBreaker (tryProviders cfg now ps ds).2.breakers n = some b := by
  have hcheck : isCircuitBreakerOpen b now = (true, b) := by
    simp only [isCircuitBreakerOpen, hopen, if_true]
    cases ht : b.halfOpenRetryTime with
    | none => rfl
    | some t =>
      have := hun t ht
      simp [Nat.not_le_of_lt this]
  intro ps
  induction ps with
  | nil => intro ds hgb hni; simpa [tryProviders] using ⟨hni, hgb⟩
  | cons p rest ih =>
    intro ds hgb hni
    simp only [tryProviders]
    by_cases hpn : p.name = n
    · subst hpn
      rw [hgb]
      simp only [hcheck]
      have h1 := ih { ds with breakers := updateBreaker ds.breakers p.name (fun _ => b) }
        (by rw [getBreaker_updateBreaker, hgb]; rfl) hni
      simpa using h1
    · have hne : n ≠ p.name := fun hc => hpn hc.symm
      cases hgb2 : getBreaker ds.breakers p.name with
      | none =>
        simp only [hgb2]
        cases hs : p.send ds.attempt.email with
        | ok m =>
          simp only [hs]
          refine ⟨?_, ?_⟩
          · intro hmem
            have hd : n ∈ ds.invoked ∨ n = p.name := by simpa using hmem
            rcases hd with h1 | h2
            · exact hni h1
            · exact hne h2
          · simpa using (getBreaker_updateBreaker_ne ds.breakers p.name n
              recordProviderSuccess hne).trans hgb
        | error e =>
          simp only [hs]
          have h1 := ih { ds with
              attempt := { ds.attempt with error := some e },
              breakers := updateBreaker ds.breakers p.name
                (fun b => recordProviderFailure cfg b now),
              invoked := ds.invoked ++ [p.name] }
            (by
              show getBreaker (updateBreaker ds.breakers p.name
                (fun b => recordProviderFailure cfg b now)) n = some b
              rw [getBreaker_updateBreaker_ne _ _ _ _ hne]
              exact hgb)
            (by
              show n ∉ ds.invoked ++ [p.name]
              intro hmem
              rcases List.mem_append.mp hmem with h1 | h2
              · exact hni h1
              · exact hne (List.mem_singleton.mp h2))
          simpa using h1
      | some b2 =>
        simp only [hgb2]
        have hgbn2 : getBreaker (updateBreaker ds.breakers p.name
            (fun _ => (isCircuitBreakerOpen b2 now).2)) n = some b := by
          rw [getBreaker_updateBreaker_ne _ _ _ _ hne]
          exact hgb
        by_cases hop : (isCircuitBreakerOpen b2 now).1
        · simp only [hop]
          have h1 := ih { ds with breakers := updateBreaker ds.breakers p.name (fun _ => (isCircuitBreakerOpen b2 now).2) }
            hgbn2 hni
          simpa using h1
        · simp only [Bool.not_eq_true] at hop
          simp only [hop]
          cases hs : p.send ds.attempt.email with
          | ok m =>
            simp only [hs]
            refine ⟨?_, ?_⟩
            · intro hmem
              have hd : n ∈ ds.invoked ∨ n = p.name := by simpa using hmem
              rcases hd with h1 | h2
              · exact hni h1
              · exact hne h2
            · simpa using (getBreaker_updateBreaker_ne
                (updateBreaker ds.breakers p.name
                  (fun _ => (isCircuitBreakerOpen b2 now).2)) p.name n
                recordProviderSuccess hne).trans hgbn2
          | error e =>
            simp only [hs]
            have h1 := ih { ds with
                attempt := { ds.attempt with error := some e },
                breakers := updateBreaker
                  (updateBreaker ds.breakers p.name
                    (fun _ => (isCircuitBreakerOpen b2 now).2)) p.name
                  (fun b => recordProviderFailure cfg b now),
                invoked := ds.invoked ++ [p.name] }
              (by
                show getBreaker (updateBreaker
                  (updateBreaker ds.breakers p.name
                    (fun _ => (isCircuitBreakerOpen b2 now).2)) p.name
                  (fun b => recordProviderFailure cfg b now)) n = some b
                rw [getBreaker_updateBreaker_ne _ _ _ _ hne]
                exact hgbn2)
              (by
                show n ∉ ds.invoked ++ [p.name]
                intro hmem
                rcases List.mem_append.mp hmem with h1 | h2
                · exact hni h1
                · exact hne (List.mem_singleton.mp h2))
            simpa using h1

/-- The retry loop never changes the attempt's identity. -/
theorem runRounds_attempt_id (cfg : Config) (ps : List Provider)
    (now : Nat) :
    ∀ (rem i : Nat) (ds : DispatchState),
      (runRounds cfg ps now rem i ds).2.attempt.id = ds.attempt.id := by
  intro rem
  induction rem with
  | zero => intro i ds; simp [runRounds]
  | succ rem ih =>
    intro i ds
    simp only [runRounds]
    have hid1 := tryProviders_attempt_id cfg now ps (roundStart i now ds)
    by_cases h1 : (tryProviders cfg now ps (roundStart i now ds)).1 = true
    · simp only [h1, if_true]
      simpa [roundStart] using hid1
    · simp only [h1, if_false, Bool.false_eq_true]
      have h2 := ih (i + 1)
        (afterRound cfg i (tryProviders cfg now ps (roundStart i now ds)).2)
      rw [h2]
      have : (afterRound cfg i
          (tryProviders cfg now ps (roundStart i now ds)).2).attempt =
          (tryProviders cfg now ps (roundStart i now ds)).2.attempt := by
        simp only [afterRound]
        split <;> rfl
      rw [this, hid1]
      simp [roundStart]

/-- If the retry loop reports success, the attempt left it marked `sent`. -/
theorem runRounds_sent_of_success (cfg : Config) (ps : List Provider)
    (now : Nat) :
    ∀ (rem i : Nat) (ds : DispatchState),
      (runRounds cfg ps now rem i ds).1 = true →
      (runRounds cfg ps now rem i ds).2.attempt.status = EmailStatus.sent := by
  intro rem
  induction rem with
  | zero => intro i ds h; simp [runRounds] at h
  | succ rem ih =>
    intro i ds h
    simp only [runRounds] at h ⊢
    by_cases h1 : (tryProviders cfg now ps (roundStart i now ds)).1 = true
    · simp only [h1, if_true]
      exact tryProviders_sent_of_success cfg now ps (roundStart i now ds) h1
    · simp only [h1, if_false, Bool.false_eq_true] at h ⊢
      exact ih (i + 1) _ h

/-- The retry loop only appends `attemptUpdated` events, all carrying the
processed attempt's identity. -/
theorem runRounds_events (cfg : Config) (ps : List Provider) (now : Nat) :
    ∀ (rem i : Nat) (ds : DispatchState), ∃ l,
      (runRounds cfg ps now rem i ds).2.events = ds.events ++ l ∧
      ∀ e ∈ l, e.isUpdated = true ∧ e.attemptOf.id = ds.attempt.id := by
  intro rem
  induction rem with
  | zero => intro i ds; exact ⟨[], by simp [runRounds], by simp⟩
  | succ rem ih =>
    intro i ds
    simp only [runRounds]
    obtain ⟨l2, hl2, hall2⟩ := tryProviders_events cfg now ps
      (roundStart i now ds)
    have hround : (roundStart i now ds).events =
        ds.events ++ [EmailEvent.attemptUpdated
          { ds.attempt with attempts := i + 1, updatedAt := now }] := rfl
    have hrid : (roundStart i now ds).attempt.id = ds.attempt.id := rfl
    by_cases h1 : (tryProviders cfg now ps (roundStart i now ds)).1 = true
    · simp only [h1, if_true]
      refine ⟨[EmailEvent.attemptUpdated
        { ds.attempt with attempts := i + 1, updatedAt := now }] ++ l2, ?_, ?_⟩
      · rw [hl2, hround, List.append_assoc]
      · intro e he
        rcases List.mem_append.mp he with h | h
        · rcases List.mem_singleton.mp h with rfl
          exact ⟨rfl, rfl⟩
        · have := hall2 e h
          exact ⟨this.1, this.2.trans hrid⟩
    · simp only [h1, if_false, Bool.false_eq_true]
      obtain ⟨l3, hl3, hall3⟩ := ih (i + 1)
        (afterRound cfg i (tryProviders cfg now ps (roundStart i now ds)).2)
      have hae : (afterRound cfg i
          (tryProviders cfg now ps (roundStart i now ds)).2).events =
          (tryProviders cfg now ps (roundStart i now ds)).2.events := by
        simp only [afterRound]; split <;> rfl
      have haa : (afterRound cfg i
          (tryProviders cfg now ps (roundStart i now ds)).2).attempt =
          (tryProviders cfg now ps (roundStart i now ds)).2.attempt := by
        simp only [afterRound]; split <;> rfl
      refine ⟨[EmailEvent.attemptUpdated
        { ds.attempt with attempts := i + 1, updatedAt := now }] ++ l2 ++ l3,
        ?_, ?_⟩
      · rw [hl3, hae, hl2, hround]
        simp [List.append_assoc]
      · intro e he
        rcases List.mem_append.mp he with h | h
        · rcases List.mem_append.mp h with h' | h'
          · rcases List.mem_singleton.mp h' with rfl
            exact ⟨rfl, rfl⟩
          · have := hall2 e h'
            exact ⟨this.1, this.2.trans hrid⟩
        · have := hall3 e h
          refine ⟨this.1, ?_⟩
          rw [this.2, haa, tryProviders_attempt_id cfg now ps, hrid]

/-- `afterRound` does not touch the attempt. -/
theorem afterRound_attempt (cfg : Config) (i : Nat) (ds : DispatchState) :
    (afterRound cfg i ds).attempt = ds.attempt := by
  simp only [afterRound]; split <;> rfl

/-- `afterRound` appends the backoff delay exactly below the last round. -/
theorem afterRound_delays (cfg : Config) (i : Nat) (ds : DispatchState) :
    (afterRound cfg i ds).delays =
      if i < cfg.maxRetries - 1 then ds.delays ++ [delayForRound cfg i]
      else ds.delays := by
  simp only [afterRound]; split <;> rfl

/-- With only always-throwing providers, the retry loop runs all its rounds:
it reports failure, preserves the status, leaves `attempts` at the last
round number, and sleeps the backoff delay after every round except the
last. -/
theorem runRounds_allFail (cfg : Config) (ps : List Provider) (now : Nat)
    (hf : ∀ p ∈ ps, p.alwaysFails) :
    ∀ (rem i : Nat) (ds : DispatchState),
      (runRounds cfg ps now rem i ds).1 = false ∧
      (runRounds cfg ps now rem i ds).2.attempt.status = ds.attempt.status ∧
      (runRounds cfg ps now rem i ds).2.attempt.attempts =
        (if rem = 0 then ds.attempt.attempts else i + rem) ∧
      (runRounds cfg ps now rem i ds).2.delays =
        ds.delays ++ (List.range' i
          (min (i + rem) (cfg.maxRetries - 1) - i)).map (delayForRound cfg) := by
  intro rem
  induction rem with
  | zero =>
    intro i ds
    have h0 : min (i + 0) (cfg.maxRetries - 1) - i = 0 := by omega
    simp [runRounds, h0]
  | succ rem ih =>
    intro i ds
    simp only [runRounds]
    have ht := tryProviders_allFail cfg now ps hf (roundStart i now ds)
    simp only [ht.1, Bool.false_eq_true, if_false]
    have hrec := ih (i + 1)
      (afterRound cfg i (tryProviders cfg now ps (roundStart i now ds)).2)
    refine ⟨hrec.1, ?_, ?_, ?_⟩
    · rw [hrec.2.1, afterRound_attempt, ht.2.1]
      rfl
    · rw [hrec.2.2.1]
      have ha : (afterRound cfg i
          (tryProviders cfg now ps (roundStart i now ds)).2).attempt.attempts
          = i + 1 := by
        rw [afterRound_attempt, ht.2.2.1]; rfl
      by_cases h0 : rem = 0
      · subst h0
        rw [if_pos rfl, if_neg (Nat.succ_ne_zero 0), ha]
      · rw [if_neg h0, if_neg (Nat.succ_ne_zero rem)]
        omega
    · rw [hrec.2.2.2, afterRound_delays, ht.2.2.2.2.2.1]
      have hds : (roundStart i now ds).delays = ds.delays := rfl
      rw [hds]
      by_cases hi : i < cfg.maxRetries - 1
      · rw [if_pos hi]
        have hk : min (i + (rem + 1)) (cfg.maxRetries - 1) - i =
            (min (i + 1 + rem) (cfg.maxRetries - 1) - (i + 1)) + 1 := by
          omega
        rw [hk, List.range'_succ]
        simp
      · rw [if_neg hi]
        have hk1 : min (i + (rem + 1)) (cfg.maxRetries - 1) - i = 0 := by
          omega
        have hk2 : min (i + 1 + rem) (cfg.maxRetries - 1) - (i + 1) = 0 := by
          omega
        simp [hk1, hk2]

/-- Dispatch never changes the attempt's identity. -/
theorem processEmailAttempt_attempt_id (cfg : Config) (ps : List Provider)
    (now : Nat) (ds : DispatchState) :
    (processEmailAttempt cfg ps now ds).attempt.id = ds.attempt.id := by
  unfold processEmailAttempt
  by_cases h1 : (runRounds cfg ps now cfg.maxRetries 0
      { ds with
        attempt := { ds.attempt with status := EmailStatus.sending },
        events := ds.events ++ [EmailEvent.attemptUpdated
          { ds.attempt with status := EmailStatus.sending }] }).1 = true
  · simp only [h1, if_true]
    rw [runRounds_attempt_id]
  · simp only [h1, Bool.false_eq_true, if_false]
    rw [runRounds_attempt_id]

/-- Dispatch of one attempt always ends in a terminal status: `sent` or
`failed`. -/
theorem processEmailAttempt_terminal (cfg : Config) (ps : List Provider)
    (now : Nat) (ds : DispatchState) :
    (processEmailAttempt cfg ps now ds).attempt.status = EmailStatus.sent ∨
    (processEmailAttempt cfg ps now ds).attempt.status =
      EmailStatus.failed := by
  unfold processEmailAttempt
  by_cases h1 : (runRounds cfg ps now cfg.maxRetries 0
      { ds with
        attempt := { ds.attempt with status := EmailStatus.sending },
        events := ds.events ++ [EmailEvent.attemptUpdated
          { ds.attempt with status := EmailStatus.sending }] }).1 = true
  · left
    simp only [h1, if_true]
    exact runRounds_sent_of_success cfg ps now _ _ _ h1
  · right
    simp only [h1, Bool.false_eq_true, if_false]

/-- Dispatch only appends `attemptUpdated` events, all carrying the
processed attempt's identity. -/
theorem processEmailAttempt_events (cfg : Config) (ps : List Provider)
    (now : Nat) (ds : DispatchState) : ∃ l,
    (processEmailAttempt cfg ps now ds).events = ds.events ++ l ∧
    l ≠ [] ∧
    ∀ e ∈ l, e.isUpdated = true ∧ e.attemptOf.id = ds.attempt.id := by
  unfold processEmailAttempt
  obtain ⟨l2, hl2, hall2⟩ := runRounds_events cfg ps now cfg.maxRetries 0
    ({ ds with
       attempt := { ds.attempt with status := EmailStatus.sending },
       events := ds.events ++ [EmailEvent.attemptUpdated
         { ds.attempt with status := EmailStatus.sending }] })
  by_cases h1 : (runRounds cfg ps now cfg.maxRetries 0
      { ds with
        attempt := { ds.attempt with status := EmailStatus.sending },
        events := ds.events ++ [EmailEvent.attemptUpdated
          { ds.attempt with status := EmailStatus.sending }] }).1 = true
  · simp only [h1, if_true]
    refine ⟨[EmailEvent.attemptUpdated
      { ds.attempt with status := EmailStatus.sending }] ++ l2, ?_, by simp, ?_⟩
    · rw [hl2]
      simp
    · intro e he
      rcases List.mem_append.mp he with h | h
      · rcases List.mem_singleton.mp h with rfl
        exact ⟨rfl, rfl⟩
      · have := hall2 e h
        exact ⟨this.1, this.2⟩
  · simp only [h1, Bool.false_eq_true, if_false]
    refine ⟨[EmailEvent.attemptUpdated
        { ds.attempt with status := EmailStatus.sending }] ++ l2 ++
        [EmailEvent.attemptUpdated
          { (runRounds cfg ps now cfg.maxRetries 0
              { ds with
                attempt := { ds.attempt with status := EmailStatus.sending },
                events := ds.events ++ [EmailEvent.attemptUpdated
                  { ds.attempt with
                    status := EmailStatus.sending }] }).2.attempt with
            status := EmailStatus.failed, updatedAt := now }], ?_, by simp, ?_⟩
    · rw [hl2]
      simp
    · intro e he
      rcases List.mem_append.mp he with h | h
      · rcases List.mem_append.mp h with h' | h'
        · rcases List.mem_singleton.mp h' with rfl
          exact ⟨rfl, rfl⟩
        · have := hall2 e h'
          exact ⟨this.1, this.2⟩
      · rcases List.mem_singleton.mp h with rfl
        refine ⟨rfl, ?_⟩
        show (runRounds cfg ps now cfg.maxRetries 0 _).2.attempt.id =
          ds.attempt.id
        rw [runRounds_attempt_id]

/-- With only always-throwing providers, dispatch exhausts every round:
terminal `failed`, `attempts` equal to `maxRetries`, every inter-round
backoff delay slept, and the exhaustion reported through a final
`attemptUpdated` event (the function is total: nothing is thrown). -/
theorem processEmailAttempt_allFail (cfg : Config) (ps : List Provider)
    (now : Nat) (ds : DispatchState) (hf : ∀ p ∈ ps, p.alwaysFails)
    (h0 : ds.attempt.attempts = 0) :
    (processEmailAttempt cfg ps now ds).attempt.status =
      EmailStatus.failed ∧
    (processEmailAttempt cfg ps now ds).attempt.attempts =
      cfg.maxRetries ∧
    (processEmailAttempt cfg ps now ds).delays =
      ds.delays ++
        (List.range (cfg.maxRetries - 1)).map (delayForRound cfg) ∧
    (processEmailAttempt cfg ps now ds).events.getLast? =
      some (EmailEvent.attemptUpdated
        (processEmailAttempt cfg ps now ds).attempt) := by
  unfold processEmailAttempt
  have hr := runRounds_allFail cfg ps now hf cfg.maxRetries 0
    ({ ds with
       attempt := { ds.attempt with status := EmailStatus.sending },
       events := ds.events ++ [EmailEvent.attemptUpdated
         { ds.attempt with status := EmailStatus.sending }] })
  simp only [hr.1, Bool.false_eq_true, if_false]
  refine ⟨by simp, ?_, ?_, ?_⟩
  · show (runRounds cfg ps now cfg.maxRetries 0 _).2.attempt.attempts =
      cfg.maxRetries
    rw [hr.2.2.1]
    by_cases hm : cfg.maxRetries = 0
    · simp [hm, h0]
    · simp [hm]
  · show (runRounds cfg ps now cfg.maxRetries 0 _).2.delays =
      ds.delays ++ (List.range (cfg.maxRetries - 1)).map (delayForRound cfg)
    rw [hr.2.2.2]
    have hmin : min (0 + cfg.maxRetries) (cfg.maxRetries - 1) - 0 =
        cfg.maxRetries - 1 := by omega
    rw [hmin, List.range_eq_range']
  · exact List.getLast?_concat _

/-- `emitRun` over a concatenation: the second block of handlers runs on
the state left by the first, whatever errors occurred there. -/
theorem emitRun_append (a : Attempt) :
    ∀ (l1 l2 : List Handler) (logs outputs : List String),
      emitRun a (l1 ++ l2) logs outputs =
        emitRun a l2 (emitRun a l1 logs outputs).1
          (emitRun a l1 logs outputs).2 := by
  intro l1
  induction l1 with
  | nil => intro l2 logs outputs; simp [emitRun]
  | cons h rest ih =>
    intro l2 logs outputs
    cases hr : h a with
    | ok out => simp [emitRun, hr, ih]
    | error e => simp [emitRun, hr, ih]

/-- The invocation trace only grows during the provider loop. -/
theorem tryProviders_invoked_mono (cfg : Config) (now : Nat) :
    ∀ (ps : List Provider) (ds : DispatchState) (x : String),
      x ∈ ds.invoked → x ∈ (tryProviders cfg now ps ds).2.invoked := by
  intro ps
  induction ps with
  | nil => intro ds x hx; simpa [tryProviders] using hx
  | cons p rest ih =>
    intro ds x hx
    simp only [tryProviders]
    cases hgb : getBreaker ds.breakers p.name with
    | none =>
      simp only [hgb]
      cases hs : p.send ds.attempt.email with
      | ok m =>
        simp only [hs]
        exact List.mem_append_left _ hx
      | error e =>
        simp only [hs]
        exact ih _ x (List.mem_append_left _ hx)
    | some b =>
      simp only [hgb]
      by_cases hop : (isCircuitBreakerOpen b now).1
      · simp only [hop]
        exact ih _ x hx
      · simp only [Bool.not_eq_true] at hop
        simp only [hop]
        cases hs : p.send ds.attempt.email with
        | ok m =>
          simp only [hs]
          exact List.mem_append_left _ hx
        | error e =>
          simp only [hs]
          exact ih _ x (List.mem_append_left _ hx)

/-- Lift of `tryProviders_skips_open` to the whole retry loop. -/
theorem runRounds_skips_open (cfg : Config) (now : Nat) (n : String)
    (b : CircuitBreaker) (hopen : b.isOpen = true)
    (hun : ∀ t, b.halfOpenRetryTime = some t → now < t)
    (ps : List Provider) :
    ∀ (rem i : Nat) (ds : DispatchState),
      getBreaker ds.breakers n = some b → n ∉ ds.invoked →
      n ∉ (runRounds cfg ps now rem i ds).2.invoked ∧
      getBreaker (runRounds cfg ps now rem i ds).2.breakers n = some b := by
  intro rem
  induction rem with
  | zero => intro i ds hgb hni; simpa [runRounds] using ⟨hni, hgb⟩
  | succ rem ih =>
    intro i ds hgb hni
    simp only [runRounds]
    have hstep := tryProviders_skips_open cfg now n b hopen hun ps
      (roundStart i now ds) hgb hni
    by_cases h1 : (tryProviders cfg now ps (roundStart i now ds)).1 = true
    · simp only [h1, if_true]
      exact hstep
    · simp only [h1, Bool.false_eq_true, if_false]
      have hgb2 : getBreaker (afterRound cfg i
          (tryProviders cfg now ps (roundStart i now ds)).2).breakers n =
          some b := by
        have : (afterRound cfg i
            (tryProviders cfg now ps (roundStart i now ds)).2).breakers =
            (tryProviders cfg now ps (roundStart i now ds)).2.breakers := by
          simp only [afterRound]; split <;> rfl
        rw [this]
        exact hstep.2
      have hni2 : n ∉ (afterRound cfg i
          (tryProviders cfg now ps (roundStart i now ds)).2).invoked := by
        have : (afterRound cfg i
            (tryProviders cfg now ps (roundStart i now ds)).2).invoked =
            (tryProviders cfg now ps (roundStart i now ds)).2.invoked := by
          simp only [afterRound]; split <;> rfl
        rw [this]
        exact hstep.1
      exact ih (i + 1) _ hgb2 hni2

/-- The dispatcher never invokes a backend whose breaker is open with an
unelapsed (or absent) resume time. -/
theorem processEmailAttempt_skips_open (cfg : Config) (ps : List Provider)
    (now : Nat) (ds : DispatchState) (n : String) (b : CircuitBreaker)
    (hopen : b.isOpen = true)
    (hun : ∀ t, b.halfOpenRetryTime = some t → now < t)
    (hgb : getBreaker ds.breakers n = some b) (hni : n ∉ ds.invoked) :
    n ∉ (processEmailAttempt cfg ps now ds).invoked := by
  unfold processEmailAttempt
  have h := runRounds_skips_open cfg now n b hopen hun ps cfg.maxRetries 0
    ({ ds with
       attempt := { ds.attempt with status := EmailStatus.sending },
       events := ds.events ++ [EmailEvent.attemptUpdated
         { ds.attempt with status := EmailStatus.sending }] })
    hgb hni
  by_cases h1 : (runRounds cfg ps now cfg.maxRetries 0
      { ds with
        attempt := { ds.attempt with status := EmailStatus.sending },
        events := ds.events ++ [EmailEvent.attemptUpdated
          { ds.attempt with status := EmailStatus.sending }] }).1 = true
  · simp only [h1, if_true]
    exact h.1
  · simp only [h1, Bool.false_eq_true, if_false]
    exact h.1

/-- An update event is not a creation event. -/
theorem isCreated_false_of_isUpdated (e : EmailEvent)
    (h : e.isUpdated = true) : e.isCreated = false := by
  cases e with
  | attemptCreated a => simp [EmailEvent.isUpdated] at h
  | attemptUpdated a => rfl

/-- Ledger lookup finds an entry appended behind ids that all differ. -/
theorem getAttempt_append_last (l : List Attempt) (a : Attempt)
    (id : String) (hid : a.id = id) (h : ∀ x ∈ l, x.id ≠ id) :
    getAttempt (l ++ [a]) id = some a := by
  simp only [getAttempt, List.find?_append]
  have h1 : List.find? (fun x => x.id == id) l = none := by
    simp only [List.find?_eq_none]
    intro x hx
    simp [h x hx]
  rw [h1]
  simp [hid]

/-- The idempotency scan finds a matching entry appended behind entries
that all fail the predicate. -/
theorem findExistingAttempt_append_last (l : List Attempt) (a : Attempt)
    (email : Email) (now : Nat)
    (hm : matchesExisting email now a = true)
    (h : ∀ x ∈ l, matchesExisting email now x = false) :
    findExistingAttempt (l ++ [a]) email now = some a := by
  simp only [findExistingAttempt, List.find?_append]
  have h1 : List.find? (matchesExisting email now) l = none := by
    simp only [List.find?_eq_none]
    intro x hx
    simp [h x hx]
  rw [h1]
  simp [hm]

/-- A submission-created attempt record (with any non-failed status and any
error annotation) satisfies the idempotency predicate for its own message
while the window is open. -/
theorem matchesExisting_new (cfg : Config) (id : String) (email : Email)
    (t1 t2 : Nat) (hwin : t2 - t1 < 300000) (s : EmailStatus)
    (hs : s ≠ EmailStatus.failed) (err : Option String) :
    matchesExisting email t2
      { newAttempt cfg id email t1 with status := s, error := err } =
      true := by
  simp [matchesExisting, newAttempt, hs, hwin]

/-! ## Claim theorems -/

/-- C1, counterexample: the claim states that a successful admission check
itself increments the window counter and that the counter is not
incremented in the dispatcher's success path. On the code both parts are
false at this concrete input: with the counter at 5 (below the ceiling of
100) and the window unexpired, `checkRateLimit` returns true yet leaves the
counter at 5, not 6; and a dispatch in which provider B succeeds raises the
counter from 0 to 1 via `incrementRateLimit` in the success path. -/
theorem C1_counterexample :
    (checkRateLimit cfgD { count := 5, resetTime := 1000 } 0).1 = true ∧
    (checkRateLimit cfgD { count := 5, resetTime := 1000 } 0).2.count = 5 ∧
    ¬ (checkRateLimit cfgD { count := 5, resetTime := 1000 } 0).2.count
        = 5 + 1 ∧
    (tryProviders cfgD 5 [provOk] dsD).1 = true ∧
    (tryProviders cfgD 5 [provOk] dsD).2.rateLimit.count =
      dsD.rateLimit.count + 1 := by
  decide

/-- C1, amended: after lazily resetting an expired window, `checkRateLimit`
returns true iff the counter is below the per-window ceiling, and never
mutates the counter itself; the counter is instead incremented exactly once
by `incrementRateLimit` in the dispatcher's success path after a message is
sent. -/
theorem C1_rate_admission (cfg : Config) (st : RateLimitState) (now : Nat)
    (ps : List Provider) (ds : DispatchState)
    (hs : (tryProviders cfg now ps ds).1 = true) :
    ((checkRateLimit cfg st now).1 = true ↔
      (checkRateLimit cfg st now).2.count < cfg.rateLimitPerMinute) ∧
    (checkRateLimit cfg st now).2 =
      (if st.resetTime ≤ now then
        { count := 0, resetTime := now + 60000 } else st) ∧
    (checkRateLimit cfg st now).2.count =
      (if st.resetTime ≤ now then 0 else st.count) ∧
    (tryProviders cfg now ps ds).2.rateLimit.count =
      ds.rateLimit.count + 1 := by
  refine ⟨?_, ?_, ?_, ?_⟩
  · simp only [checkRateLimit]
    split <;> simp
  · rfl
  · simp only [checkRateLimit]
    split <;> rfl
  · rw [tryProviders_rateLimit_of_success cfg now ps ds hs]
    rfl

/-- Witness for C1_rate_admission at concrete inputs. -/
theorem C1_rate_admission_witness :
    (tryProviders cfgD 5 [provOk] dsD).1 = true ∧
    ((checkRateLimit cfgD rlD 0).1 = true ↔
      (checkRateLimit cfgD rlD 0).2.count < cfgD.rateLimitPerMinute) ∧
    (checkRateLimit cfgD rlD 0).2 =
      (if rlD.resetTime ≤ 0 then
        { count := 0, resetTime := 0 + 60000 } else rlD) ∧
    (checkRateLimit cfgD rlD 0).2.count =
      (if rlD.resetTime ≤ 0 then 0 else rlD.count) ∧
    (tryProviders cfgD 5 [provOk] dsD).2.rateLimit.count =
      dsD.rateLimit.count + 1 :=
  ⟨by decide, C1_rate_admission cfgD rlD 0 [provOk] dsD (by decide)⟩

/-- C4: recording a success resets the breaker entirely (counter to 0,
closed, resume time cleared); recording a failure increments the counter
and opens the breaker with resume time `now + reset interval` exactly when
the counter reaches the threshold, leaving the open flag and resume time
untouched below it; and updating one backend's breaker never changes
another backend's stored breaker. -/
theorem C4_breaker_transitions (cfg : Config) (b : CircuitBreaker)
    (now : Nat) (m : BreakerMap) (n other : String)
    (f : CircuitBreaker → CircuitBreaker) (hne : other ≠ n) :
    (recordProviderSuccess b).failureCount = 0 ∧
    (recordProviderSuccess b).isOpen = false ∧
    (recordProviderSuccess b).halfOpenRetryTime = none ∧
    (recordProviderFailure cfg b now).failureCount = b.failureCount + 1 ∧
    (cfg.circuitBreakerThreshold ≤ b.failureCount + 1 →
      (recordProviderFailure cfg b now).isOpen = true ∧
      (recordProviderFailure cfg b now).halfOpenRetryTime =
        some (now + cfg.circuitBreakerResetTime)) ∧
    (b.failureCount + 1 < cfg.circuitBreakerThreshold →
      (recordProviderFailure cfg b now).isOpen = b.isOpen ∧
      (recordProviderFailure cfg b now).halfOpenRetryTime =
        b.halfOpenRetryTime) ∧
    getBreaker (updateBreaker m n f) other = getBreaker m other := by
  refine ⟨rfl, rfl, rfl, ?_, ?_, ?_,
    getBreaker_updateBreaker_ne m n other f hne⟩
  · simp only [recordProviderFailure]
    split <;> rfl
  · intro h
    simp only [recordProviderFailure]
    rw [if_pos (by simpa using h)]
    exact ⟨rfl, rfl⟩
  · intro h
    simp only [recordProviderFailure]
    rw [if_neg (by simp; omega)]
    exact ⟨rfl, rfl⟩

/-- Witness for C4_breaker_transitions: a breaker at 4 failures under the
default threshold of 5 opens on the next failure at time 7. -/
theorem C4_breaker_transitions_witness :
    ("B" : String) ≠ "A" ∧
    cfgD.circuitBreakerThreshold ≤ bNear.failureCount + 1 ∧
    (recordProviderSuccess bNear).failureCount = 0 ∧
    (recordProviderFailure cfgD bNear 7).failureCount =
      bNear.failureCount + 1 ∧
    (recordProviderFailure cfgD bNear 7).isOpen = true ∧
    (recordProviderFailure cfgD bNear 7).halfOpenRetryTime =
      some (7 + cfgD.circuitBreakerResetTime) ∧
    getBreaker (updateBreaker [("A", bClosed), ("B", bClosed)] "A"
      recordProviderSuccess) "B" =
      getBreaker [("A", bClosed), ("B", bClosed)] "B" := by
  have h := C4_breaker_transitions cfgD bNear 7
    [("A", bClosed), ("B", bClosed)] "A" "B" recordProviderSuccess
    (by decide)
  exact ⟨by decide, by decide, h.1, h.2.2.2.1,
    (h.2.2.2.2.1 (by decide)).1, (h.2.2.2.2.1 (by decide)).2,
    h.2.2.2.2.2.2⟩

/-- C9: `emit` invokes every listener registered for the event kind in
order; a throwing listener's error is caught and logged, every remaining
listener still runs, and the error never escapes `emit` (the equations
below fully determine its result as a value — nothing is thrown). -/
theorem C9_emit_isolated (eventListeners : List (String × List Handler))
    (event : String) (a : Attempt) (logs : List String)
    (ls : List Handler)
    (hlk : (List.find? (fun p => p.1 == event) eventListeners).map
      Prod.snd = some ls) :
    emit eventListeners event a logs =
      (logs ++ ls.filterMap (fun h =>
          match h a with
          | Except.error e => some ("Event listener error: " ++ e)
          | Except.ok _ => none),
       ls.filterMap (fun h =>
          match h a with
          | Except.error _ => none
          | Except.ok out => some out)) ∧
    ∀ (l1 l2 : List Handler) (hb : Handler) (e : String),
      hb a = Except.error e →
      ∀ (lg outs : List String),
      emitRun a (l1 ++ hb :: l2) lg outs =
        emitRun a l2
          ((emitRun a l1 lg outs).1 ++ ["Event listener error: " ++ e])
          (emitRun a l1 lg outs).2 := by
  constructor
  · simp only [emit, hlk]
    rw [emitRun_eq]
    simp
  · intro l1 l2 hb e hbe lg outs
    rw [emitRun_append]
    simp [emitRun, hbe]

/-- Witness for C9_emit_isolated: a registry with a throwing handler
between two normal ones; both normal handlers' effects appear and the
error is logged. -/
theorem C9_emit_isolated_witness :
    ((List.find? (fun p => p.1 == "attemptUpdated") evLD).map Prod.snd =
      some [hOk1, hBad, hOk2]) ∧
    hBad aD = Except.error "listener blew up" ∧
    emit evLD "attemptUpdated" aD [] =
      ([ "Event listener error: listener blew up" ],
       ["handler-one", "handler-two"]) := by
  have h := C9_emit_isolated evLD "attemptUpdated" aD [] [hOk1, hBad, hOk2]
    rfl
  refine ⟨rfl, rfl, ?_⟩
  rw [h.1]
  rfl

/-- C3: when every backend invocation fails in every round and the
attempt enters dispatch with `attempts = 0` and `maxAttempts =
cfg.maxRetries = N`, processing ends with status `failed` and
`attempts = N`; the exhaustion is reported through the final state and a
last `attemptUpdated` event — `processEmailAttempt` is a total function
into `DispatchState`, so nothing is raised to the submitter (whose
`sendEmail` call returned before dispatch). -/
theorem C3_retry_exhaustion (cfg : Config) (ps : List Provider) (now : Nat)
    (ds : DispatchState) (hf : ∀ p ∈ ps, p.alwaysFails)
    (h0 : ds.attempt.attempts = 0) :
    (processEmailAttempt cfg ps now ds).attempt.status =
      EmailStatus.failed ∧
    (processEmailAttempt cfg ps now ds).attempt.attempts =
      cfg.maxRetries ∧
    (processEmailAttempt cfg ps now ds).events.getLast? =
      some (EmailEvent.attemptUpdated
        (processEmailAttempt cfg ps now ds).attempt) := by
  have h := processEmailAttempt_allFail cfg ps now ds hf h0
  exact ⟨h.1, h.2.1, h.2.2.2⟩

/-- Witness for C3_retry_exhaustion: a single always-throwing provider
under the default configuration (`maxRetries = 3`). -/
theorem C3_retry_exhaustion_witness :
    (∀ p ∈ [provFail], p.alwaysFails) ∧
    dsD.attempt.attempts = 0 ∧
    ((processEmailAttempt cfgD [provFail] 5 dsD).attempt.status =
       EmailStatus.failed ∧
     (processEmailAttempt cfgD [provFail] 5 dsD).attempt.attempts =
       cfgD.maxRetries ∧
     (processEmailAttempt cfgD [provFail] 5 dsD).events.getLast? =
       some (EmailEvent.attemptUpdated
         (processEmailAttempt cfgD [provFail] 5 dsD).attempt)) := by
  have hf : ∀ p ∈ [provFail], p.alwaysFails := by
    intro p hp em
    rcases List.mem_singleton.mp hp with rfl
    exact ⟨"A provider failure: Network timeout", rfl⟩
  exact ⟨hf, rfl, C3_retry_exhaustion cfgD [provFail] 5 dsD hf rfl⟩

/-- C7: the backoff delay of round `i` is
`min(initialDelayMs * backoffMultiplier ^ i, maxDelayMs)`, never exceeds
`maxDelayMs` for any round index, and when every round fails the dispatcher
sleeps exactly the delays of rounds `0 .. N-2` — `N - 1` of them, none
after the final round. -/
theorem C7_backoff (cfg : Config) (ps : List Provider) (now : Nat)
    (ds : DispatchState) (i : Nat) (hf : ∀ p ∈ ps, p.alwaysFails)
    (h0 : ds.attempt.attempts = 0) (hd : ds.delays = []) :
    delayForRound cfg i =
      min (cfg.initialDelayMs * cfg.backoffMultiplier ^ i)
        cfg.maxDelayMs ∧
    delayForRound cfg i ≤ cfg.maxDelayMs ∧
    (processEmailAttempt cfg ps now ds).delays =
      (List.range (cfg.maxRetries - 1)).map (delayForRound cfg) ∧
    (processEmailAttempt cfg ps now ds).delays.length =
      cfg.maxRetries - 1 ∧
    ∀ d ∈ (processEmailAttempt cfg ps now ds).delays,
      d ≤ cfg.maxDelayMs := by
  have h := processEmailAttempt_allFail cfg ps now ds hf h0
  have hdel : (processEmailAttempt cfg ps now ds).delays =
      (List.range (cfg.maxRetries - 1)).map (delayForRound cfg) := by
    rw [h.2.2.1, hd]
    rfl
  refine ⟨rfl, Nat.min_le_right _ _, hdel, ?_, ?_⟩
  · rw [hdel]
    simp
  · intro d hdm
    rw [hdel] at hdm
    obtain ⟨j, -, hj⟩ := List.mem_map.mp hdm
    rw [← hj]
    exact Nat.min_le_right _ _

/-- Witness for C7_backoff under the default configuration: three rounds,
delays 1000 then 2000, each below the 10000 cap. -/
theorem C7_backoff_witness :
    (∀ p ∈ [provFail], p.alwaysFails) ∧
    dsD.attempt.attempts = 0 ∧
    dsD.delays = [] ∧
    (delayForRound cfgD 1 =
       min (cfgD.initialDelayMs * cfgD.backoffMultiplier ^ 1)
         cfgD.maxDelayMs ∧
     delayForRound cfgD 1 ≤ cfgD.maxDelayMs ∧
     (processEmailAttempt cfgD [provFail] 5 dsD).delays =
       (List.range (cfgD.maxRetries - 1)).map (delayForRound cfgD) ∧
     (processEmailAttempt cfgD [provFail] 5 dsD).delays.length =
       cfgD.maxRetries - 1 ∧
     ∀ d ∈ (processEmailAttempt cfgD [provFail] 5 dsD).delays,
       d ≤ cfgD.maxDelayMs) ∧
    (processEmailAttempt cfgD [provFail] 5 dsD).delays = [1000, 2000] := by
  have hf : ∀ p ∈ [provFail], p.alwaysFails := by
    intro p hp em
    rcases List.mem_singleton.mp hp with rfl
    exact ⟨"A provider failure: Network timeout", rfl⟩
  exact ⟨hf, rfl, rfl, C7_backoff cfgD [provFail] 5 dsD 1 hf rfl rfl,
    by decide⟩

/-- C5: the dispatcher never invokes a backend whose breaker is open with
an unelapsed (or absent) resume time; a dispatch check against an open
breaker whose resume time has elapsed clears `isOpen` and the resume time
(the half-open probe) and the loop then invokes that backend; and a
failure during the probe reopens the breaker with resume time
`now + reset interval` (the probe keeps the accumulated `failureCount`,
which was at least the threshold when the breaker opened). -/
theorem C5_circuit_probe (cfg : Config) (now now2 : Nat) (n : String)
    (b b2 : CircuitBreaker) (ps : List Provider) (ds ds2 : DispatchState)
    (p : Provider) (rest : List Provider) (t : Nat)
    (hopen : b.isOpen = true)
    (hun : ∀ u, b.halfOpenRetryTime = some u → now < u)
    (hgb : getBreaker ds.breakers n = some b)
    (hni : n ∉ ds.invoked)
    (hopen2 : b2.isOpen = true)
    (ht : b2.halfOpenRetryTime = some t) (hel : t ≤ now2)
    (hth : cfg.circuitBreakerThreshold ≤ b2.failureCount)
    (hgb2 : getBreaker ds2.breakers p.name = some b2) :
    n ∉ (processEmailAttempt cfg ps now ds).invoked ∧
    isCircuitBreakerOpen b2 now2 =
      (false, { b2 with isOpen := false, halfOpenRetryTime := none }) ∧
    p.name ∈ (tryProviders cfg now2 (p :: rest) ds2).2.invoked ∧
    (recordProviderFailure cfg
      ((isCircuitBreakerOpen b2 now2).2) now2).isOpen = true ∧
    (recordProviderFailure cfg
      ((isCircuitBreakerOpen b2 now2).2) now2).halfOpenRetryTime =
      some (now2 + cfg.circuitBreakerResetTime) := by
  have hprobe : isCircuitBreakerOpen b2 now2 =
      (false, { b2 with isOpen := false, halfOpenRetryTime := none }) := by
    simp [isCircuitBreakerOpen, hopen2, ht, hel]
  refine ⟨processEmailAttempt_skips_open cfg ps now ds n b hopen hun hgb
    hni, hprobe, ?_, ?_, ?_⟩
  · simp only [tryProviders, hgb2, hprobe]
    cases hs : p.send ds2.attempt.email with
    | ok m =>
      simp only [hs]
      simp
    | error e =>
      simp only [hs]
      refine tryProviders_invoked_mono cfg now2 rest _ p.name ?_
      simp
  · have h2 : (isCircuitBreakerOpen b2 now2).2 =
        { b2 with isOpen := false, halfOpenRetryTime := none } := by
      rw [hprobe]
    rw [h2]
    simp only [recordProviderFailure]
    rw [if_pos (show cfg.circuitBreakerThreshold ≤ b2.failureCount + 1 by
      omega)]
  · have h2 : (isCircuitBreakerOpen b2 now2).2 =
        { b2 with isOpen := false, halfOpenRetryTime := none } := by
      rw [hprobe]
    rw [h2]
    simp only [recordProviderFailure]
    rw [if_pos (show cfg.circuitBreakerThreshold ≤ b2.failureCount + 1 by
      omega)]

/-- Witness for C5_circuit_probe: provider A's breaker opened at time 100
with resume time 60100 under the default configuration; at time 5 it is
skipped, at time 70000 it half-opens and the probe runs; a probe failure
reopens it until 130000. -/
theorem C5_circuit_probe_witness :
    bOpenD.isOpen = true ∧
    getBreaker dsOpen.breakers "A" = some bOpenD ∧
    bOpenD.halfOpenRetryTime = some 60100 ∧
    (60100 : Nat) ≤ 70000 ∧
    cfgD.circuitBreakerThreshold ≤ bOpenD.failureCount ∧
    ("A" ∉ (processEmailAttempt cfgD [provFail, provOk] 5 dsOpen).invoked ∧
     isCircuitBreakerOpen bOpenD 70000 =
       (false, { bOpenD with
                 isOpen := false,
                 halfOpenRetryTime := none }) ∧
     provFail.name ∈
       (tryProviders cfgD 70000 (provFail :: [provOk]) dsOpen).2.invoked ∧
     (recordProviderFailure cfgD
       ((isCircuitBreakerOpen bOpenD 70000).2) 70000).isOpen = true ∧
     (recordProviderFailure cfgD
       ((isCircuitBreakerOpen bOpenD 70000).2) 70000).halfOpenRetryTime =
       some (70000 + cfgD.circuitBreakerResetTime)) := by
  have hun : ∀ u, bOpenD.halfOpenRetryTime = some u → 5 < u := by
    intro u hu
    rw [show bOpenD.halfOpenRetryTime = some 60100 from rfl] at hu
    cases hu
    decide
  exact ⟨rfl, rfl, rfl, by decide, by decide,
    C5_circuit_probe cfgD 5 70000 "A" bOpenD bOpenD [provFail, provOk]
      dsOpen dsOpen provFail [provOk] 60100 rfl hun rfl
      (by simp [dsOpen]) rfl rfl (by decide) (by decide) rfl⟩

/-- C6: on a fresh submission, denied admission records the attempt with
terminal status `rate_limited`, leaves the queue untouched (so no delivery
is ever dispatched for it) and throws the distinguishable rate-limit
error; granted admission returns the new identity immediately — `sendEmail`
ends at enqueue time, before any delivery. -/
theorem C6_rate_limited (cfg : Config) (st : ServiceState) (id : String)
    (email : Email) (now : Nat)
    (hno : findExistingAttempt st.attempts email now = none)
    (hfresh : ∀ a ∈ st.attempts, a.id ≠ id) :
    ((checkRateLimit cfg st.rateLimitState now).1 = false →
      (sendEmail cfg st id email now).1 =
        Except.error "Rate limit exceeded. Please try again later." ∧
      (sendEmail cfg st id email now).2.queue = st.queue ∧
      getAttempt (sendEmail cfg st id email now).2.attempts id =
        some { newAttempt cfg id email now with
               status := EmailStatus.rate_limited,
               error := some "Rate limit exceeded" }) ∧
    ((checkRateLimit cfg st.rateLimitState now).1 = true →
      (sendEmail cfg st id email now).1 = Except.ok id ∧
      (sendEmail cfg st id email now).2.queue = st.queue ++ [id]) := by
  constructor
  · intro hdeny
    have hs := sendEmail_denied cfg st id email now hno hfresh hdeny
    rw [hs]
    exact ⟨rfl, rfl, getAttempt_append_last st.attempts _ id rfl hfresh⟩
  · intro hgrant
    have hs := sendEmail_granted cfg st id email now hno hfresh hgrant
    rw [hs]
    exact ⟨rfl, rfl⟩

/-- Witness for C6_rate_limited: an exhausted window (100 of 100 admitted)
denies the submission. -/
theorem C6_rate_limited_witness :
    findExistingAttempt stFull.attempts emD 10 = none ∧
    (checkRateLimit cfgD stFull.rateLimitState 10).1 = false ∧
    ((sendEmail cfgD stFull "email_1" emD 10).1 =
       Except.error "Rate limit exceeded. Please try again later." ∧
     (sendEmail cfgD stFull "email_1" emD 10).2.queue = stFull.queue ∧
     getAttempt (sendEmail cfgD stFull "email_1" emD 10).2.attempts
       "email_1" =
       some { newAttempt cfgD "email_1" emD 10 with
              status := EmailStatus.rate_limited,
              error := some "Rate limit exceeded" }) := by
  have h := C6_rate_limited cfgD stFull "email_1" emD 10 rfl
    (by simp [stFull])
  exact ⟨rfl, by decide, h.1 (by decide)⟩

/-- C2: idempotency deduplication. For any state, a submission whose
message already has a matching (identical recipient/subject/body,
non-failed, in-window) ledger entry returns that entry's identity and
changes nothing — no new attempt, no queue entry. And in the two-submission
scenario — a fresh admitted submission at `t1` followed by an identical one
at `t2` inside the window — both calls return the same identity, the second
leaves the state exactly as the first left it, and the ledger then holds
exactly one attempt matching the message. -/
theorem C2_dedup (cfg : Config) (st : ServiceState) (id id2 : String)
    (email : Email) (t1 t2 : Nat)
    (hno : ∀ a ∈ st.attempts, matchesExisting email t1 a = false)
    (hfresh : ∀ a ∈ st.attempts, a.id ≠ id)
    (hgrant : (checkRateLimit cfg st.rateLimitState t1).1 = true)
    (hle : t1 ≤ t2) (hwin : t2 - t1 < 300000) :
    (∀ (st' : ServiceState) (idn : String) (ex : Attempt),
       findExistingAttempt st'.attempts email t2 = some ex →
       sendEmail cfg st' idn email t2 = (Except.ok ex.id, st')) ∧
    (sendEmail cfg st id email t1).1 = Except.ok id ∧
    (sendEmail cfg (sendEmail cfg st id email t1).2 id2 email t2).1 =
      Except.ok id ∧
    (sendEmail cfg (sendEmail cfg st id email t1).2 id2 email t2).2 =
      (sendEmail cfg st id email t1).2 ∧
    countMatching (sendEmail cfg st id email t1).2.attempts email t2
      = 1 := by
  have hnone : findExistingAttempt st.attempts email t1 = none := by
    simp only [findExistingAttempt, List.find?_eq_none]
    intro a ha
    simp [hno a ha]
  have hs1 := sendEmail_granted cfg st id email t1 hnone hfresh hgrant
  have hno2 : ∀ a ∈ st.attempts, matchesExisting email t2 a = false := by
    intro a ha
    cases hbe : matchesExisting email t2 a with
    | false => rfl
    | true =>
      have hh := matchesExisting_mono email a t1 t2 hle hbe
      rw [hno a ha] at hh
      cases hh
  have hmq : matchesExisting email t2
      { newAttempt cfg id email t1 with status := EmailStatus.queued } =
      true :=
    matchesExisting_new cfg id email t1 t2 hwin EmailStatus.queued
      (by decide) none
  have hfind2 : findExistingAttempt
      (sendEmail cfg st id email t1).2.attempts email t2 =
      some { newAttempt cfg id email t1 with
             status := EmailStatus.queued } := by
    rw [hs1]
    exact findExistingAttempt_append_last st.attempts _ email t2 hmq hno2
  have hdup := sendEmail_dup cfg (sendEmail cfg st id email t1).2 id2
    email t2 _ hfind2
  refine ⟨?_, ?_, ?_, ?_, ?_⟩
  · intro st' idn ex h
    exact sendEmail_dup cfg st' idn email t2 ex h
  · rw [hs1]
  · rw [hdup]
    rfl
  · rw [hdup]
  · rw [hs1]
    simp only [countMatching, List.filter_append]
    rw [List.filter_eq_nil_iff.mpr (by intro a ha; simp [hno2 a ha])]
    simp [hmq]

/-- Witness for C2_dedup: the same message submitted to an empty service at
times 10 and 20. -/
theorem C2_dedup_witness :
    (∀ a ∈ stD.attempts, matchesExisting emD 10 a = false) ∧
    (checkRateLimit cfgD stD.rateLimitState 10).1 = true ∧
    (20 : Nat) - 10 < 300000 ∧
    ((sendEmail cfgD stD "email_1" emD 10).1 = Except.ok "email_1" ∧
     (sendEmail cfgD (sendEmail cfgD stD "email_1" emD 10).2 "email_2"
        emD 20).1 = Except.ok "email_1" ∧
     (sendEmail cfgD (sendEmail cfgD stD "email_1" emD 10).2 "email_2"
        emD 20).2 = (sendEmail cfgD stD "email_1" emD 10).2 ∧
     countMatching (sendEmail cfgD stD "email_1" emD 10).2.attempts emD 20
       = 1) := by
  have h := C2_dedup cfgD stD "email_1" "email_2" emD 10 20
    (by simp [stD]) (by simp [stD]) (by decide) (by decide) (by decide)
  exact ⟨by simp [stD], by decide, by decide,
    h.2.1, h.2.2.1, h.2.2.2.1, h.2.2.2.2⟩

/-- C10: a rate-limit-rejected submission leaves a `rate_limited` (hence
non-failed) attempt in the ledger that satisfies the idempotency predicate,
so an identical submission inside the 5-minute window returns that
rejected attempt's identity with no error, no state change — no enqueue,
no new attempt, and hence no delivery ever dispatched for the message. -/
theorem C10_rate_limited_dedup (cfg : Config) (st : ServiceState)
    (id id2 : String) (email : Email) (t1 t2 : Nat)
    (hno : ∀ a ∈ st.attempts, matchesExisting email t1 a = false)
    (hfresh : ∀ a ∈ st.attempts, a.id ≠ id)
    (hdeny : (checkRateLimit cfg st.rateLimitState t1).1 = false)
    (hle : t1 ≤ t2) (hwin : t2 - t1 < 300000) :
    (sendEmail cfg st id email t1).1 =
      Except.error "Rate limit exceeded. Please try again later." ∧
    (sendEmail cfg st id email t1).2.queue = st.queue ∧
    getAttempt (sendEmail cfg st id email t1).2.attempts id =
      some { newAttempt cfg id email t1 with
             status := EmailStatus.rate_limited,
             error := some "Rate limit exceeded" } ∧
    matchesExisting email t2
      { newAttempt cfg id email t1 with
        status := EmailStatus.rate_limited,
        error := some "Rate limit exceeded" } = true ∧
    (sendEmail cfg (sendEmail cfg st id email t1).2 id2 email t2).1 =
      Except.ok id ∧
    (sendEmail cfg (sendEmail cfg st id email t1).2 id2 email t2).2 =
      (sendEmail cfg st id email t1).2 := by
  have hnone : findExistingAttempt st.attempts email t1 = none := by
    simp only [findExistingAttempt, List.find?_eq_none]
    intro a ha
    simp [hno a ha]
  have hs1 := sendEmail_denied cfg st id email t1 hnone hfresh hdeny
  have hno2 : ∀ a ∈ st.attempts, matchesExisting email t2 a = false := by
    intro a ha
    cases hbe : matchesExisting email t2 a with
    | false => rfl
    | true =>
      have hh := matchesExisting_mono email a t1 t2 hle hbe
      rw [hno a ha] at hh
      cases hh
  have hmr : matchesExisting email t2
      { newAttempt cfg id email t1 with
        status := EmailStatus.rate_limited,
        error := some "Rate limit exceeded" } = true :=
    matchesExisting_new cfg id email t1 t2 hwin EmailStatus.rate_limited
      (by decide) (some "Rate limit exceeded")
  have hfind2 : findExistingAttempt
      (sendEmail cfg st id email t1).2.attempts email t2 =
      some { newAttempt cfg id email t1 with
             status := EmailStatus.rate_limited,
             error := some "Rate limit exceeded" } := by
    rw [hs1]
    exact findExistingAttempt_append_last st.attempts _ email t2 hmr hno2
  have hdup := sendEmail_dup cfg (sendEmail cfg st id email t1).2 id2
    email t2 _ hfind2
  refine ⟨?_, ?_, ?_, hmr, ?_, ?_⟩
  · rw [hs1]
  · rw [hs1]
  · rw [hs1]
    exact getAttempt_append_last st.attempts _ id rfl hfresh
  · rw [hdup]
    rfl
  · rw [hdup]

/-- Witness for C10_rate_limited_dedup: a message rejected at time 10 under
an exhausted window, resubmitted at time 20. -/
theorem C10_rate_limited_dedup_witness :
    (∀ a ∈ stFull.attempts, matchesExisting emD 10 a = false) ∧
    (checkRateLimit cfgD stFull.rateLimitState 10).1 = false ∧
    (20 : Nat) - 10 < 300000 ∧
    ((sendEmail cfgD stFull "email_1" emD 10).1 =
       Except.error "Rate limit exceeded. Please try again later." ∧
     (sendEmail cfgD stFull "email_1" emD 10).2.queue = stFull.queue ∧
     getAttempt (sendEmail cfgD stFull "email_1" emD 10).2.attempts
       "email_1" =
       some { newAttempt cfgD "email_1" emD 10 with
              status := EmailStatus.rate_limited,
              error := some "Rate limit exceeded" } ∧
     matchesExisting emD 20
       { newAttempt cfgD "email_1" emD 10 with
         status := EmailStatus.rate_limited,
         error := some "Rate limit exceeded" } = true ∧
     (sendEmail cfgD (sendEmail cfgD stFull "email_1" emD 10).2 "email_2"
        emD 20).1 = Except.ok "email_1" ∧
     (sendEmail cfgD (sendEmail cfgD stFull "email_1" emD 10).2 "email_2"
        emD 20).2 = (sendEmail cfgD stFull "email_1" emD 10).2) := by
  have h := C10_rate_limited_dedup cfgD stFull "email_1" "email_2" emD
    10 20 (by simp [stFull]) (by simp [stFull]) (by decide) (by decide)
    (by decide)
  exact ⟨by simp [stFull], by decide, by decide, h⟩

/-- C8: for a fresh admitted submission, the `attemptCreated` event for the
new identity is emitted exactly once, at ledger insertion, strictly before
every other event for that identity; every subsequent event for it —
through enqueueing and the whole dispatch — is an `attemptUpdated`; at
least one `attemptUpdated` has occurred by the time dispatch ends, and
dispatch always ends in a terminal status (`sent` or `failed`). -/
theorem C8_event_ordering (cfg : Config) (st : ServiceState) (id : String)
    (email : Email) (now now2 : Nat) (ps : List Provider)
    (bm : BreakerMap) (rl : RateLimitState)
    (hno : findExistingAttempt st.attempts email now = none)
    (hfresh : ∀ a ∈ st.attempts, a.id ≠ id)
    (hev : ∀ e ∈ st.events, e.attemptOf.id ≠ id)
    (hgrant : (checkRateLimit cfg st.rateLimitState now).1 = true) :
    getAttempt (sendEmail cfg st id email now).2.attempts id =
      some { newAttempt cfg id email now with
             status := EmailStatus.queued } ∧
    ∃ rest,
      eventsFor id (processEmailAttempt cfg ps now2
        { attempt := { newAttempt cfg id email now with
                       status := EmailStatus.queued },
          breakers := bm, rateLimit := rl,
          events := (sendEmail cfg st id email now).2.events,
          delays := [], invoked := [] }).events =
        EmailEvent.attemptCreated (newAttempt cfg id email now) :: rest ∧
      rest ≠ [] ∧
      (∀ e ∈ rest, e.isUpdated = true) ∧
      (List.filter (fun e => e.isCreated)
        (EmailEvent.attemptCreated (newAttempt cfg id email now) ::
          rest)).length = 1 ∧
      ((processEmailAttempt cfg ps now2
          { attempt := { newAttempt cfg id email now with
                         status := EmailStatus.queued },
            breakers := bm, rateLimit := rl,
            events := (sendEmail cfg st id email now).2.events,
            delays := [], invoked := [] }).attempt.status =
          EmailStatus.sent ∨
       (processEmailAttempt cfg ps now2
          { attempt := { newAttempt cfg id email now with
                         status := EmailStatus.queued },
            breakers := bm, rateLimit := rl,
            events := (sendEmail cfg st id email now).2.events,
            delays := [], invoked := [] }).attempt.status =
          EmailStatus.failed) := by
  have hs1 := sendEmail_granted cfg st id email now hno hfresh hgrant
  constructor
  · rw [hs1]
    exact getAttempt_append_last st.attempts _ id rfl hfresh
  · obtain ⟨l, hl, hlne, hall⟩ := processEmailAttempt_events cfg ps now2
      { attempt := { newAttempt cfg id email now with
                     status := EmailStatus.queued },
        breakers := bm, rateLimit := rl,
        events := (sendEmail cfg st id email now).2.events,
        delays := [], invoked := [] }
    have hev0 : (sendEmail cfg st id email now).2.events =
        st.events ++
          [EmailEvent.attemptCreated (newAttempt cfg id email now),
           EmailEvent.attemptUpdated
             { newAttempt cfg id email now with
               status := EmailStatus.queued }] := by
      rw [hs1]
    rw [hev0] at hl ⊢
    refine ⟨EmailEvent.attemptUpdated
      { newAttempt cfg id email now with
        status := EmailStatus.queued } :: l, ?_, by simp, ?_, ?_, ?_⟩
    · have hn1 : List.filter (fun e => e.attemptOf.id == id)
          st.events = [] := by
        rw [List.filter_eq_nil_iff]
        intro e he
        simp [hev e he]
      have hn2 : List.filter (fun e => e.attemptOf.id == id) l = l := by
        rw [List.filter_eq_self]
        intro e he
        simp [(hall e he).2, newAttempt]
      rw [hl]
      simp only [eventsFor, List.filter_append, hn1, hn2]
      simp [EmailEvent.attemptOf, newAttempt]
    · intro e he
      rcases List.mem_cons.mp he with rfl | hmem
      · rfl
      · exact (hall e hmem).1
    · simp only [List.filter_cons]
      have hcr : (EmailEvent.attemptCreated
          (newAttempt cfg id email now)).isCreated = true := rfl
      have hup : (EmailEvent.attemptUpdated
          { newAttempt cfg id email now with
            status := EmailStatus.queued }).isCreated = false := rfl
      rw [List.filter_eq_nil_iff.mpr (by
        intro e he
        simp [isCreated_false_of_isUpdated e (hall e he).1])]
      simp [hcr, hup]
    · exact processEmailAttempt_terminal cfg ps now2 _

/-- Witness for C8_event_ordering: a fresh submission to the empty service
dispatched through the always-succeeding provider B. -/
theorem C8_event_ordering_witness :
    findExistingAttempt stD.attempts emD 10 = none ∧
    (checkRateLimit cfgD stD.rateLimitState 10).1 = true ∧
    (getAttempt (sendEmail cfgD stD "email_1" emD 10).2.attempts
       "email_1" =
       some { newAttempt cfgD "email_1" emD 10 with
              status := EmailStatus.queued } ∧
     ∃ rest,
       eventsFor "email_1" (processEmailAttempt cfgD [provOk] 20
         { attempt := { newAttempt cfgD "email_1" emD 10 with
                        status := EmailStatus.queued },
           breakers := [("B", bClosed)], rateLimit := rlD,
           events := (sendEmail cfgD stD "email_1" emD 10).2.events,
           delays := [], invoked := [] }).events =
         EmailEvent.attemptCreated (newAttempt cfgD "email_1" emD 10) ::
           rest ∧
       rest ≠ [] ∧
       (∀ e ∈ rest, e.isUpdated = true) ∧
       (List.filter (fun e => e.isCreated)
         (EmailEvent.attemptCreated (newAttempt cfgD "email_1" emD 10) ::
           rest)).length = 1 ∧
       ((processEmailAttempt cfgD [provOk] 20
           { attempt := { newAttempt cfgD "email_1" emD 10 with
                          status := EmailStatus.queued },
             breakers := [("B", bClosed)], rateLimit := rlD,
             events := (sendEmail cfgD stD "email_1" emD 10).2.events,
             delays := [], invoked := [] }).attempt.status =
           EmailStatus.sent ∨
        (processEmailAttempt cfgD [provOk] 20
           { attempt := { newAttempt cfgD "email_1" emD 10 with
                          status := EmailStatus.queued },
             breakers := [("B", bClosed)], rateLimit := rlD,
             events := (sendEmail cfgD stD "email_1" emD 10).2.events,
             delays := [], invoked := [] }).attempt.status =
           EmailStatus.failed)) := by
  have h := C8_event_ordering cfgD stD "email_1" emD 10 20 [provOk]
    [("B", bClosed)] rlD rfl (by simp [stD]) (by simp [stD]) (by decide)
  exact ⟨rfl, by decide, h⟩

end EmailSvc
